import Mathlib

/-!
Verification of the similarity-object core (`src/license.rs`): the
`TextData` structure, its view management (`with_view`, `without_text`,
`lines`, `match_score`) and the two-phase boundary optimizer
(`optimize_bounds` / `search_optimize` with its bounded ternary search).

Pure-model conventions:
* floating point scores (`f32`) are modelled as rationals `ℚ`;
* the text-normalization and n-gram collaborators (`preproc.rs`,
  `ngram.rs`) are not part of the visible core and are modelled from the
  spec's description of their interfaces;
* `Result`/panic are modelled with `Except`; `unwrap` is modelled by
  `unwrapD`, which substitutes a default value where Rust would panic.
-/

namespace Askalono

/-- Splits a list of characters into groups at every character satisfying
`p` (the separator characters are dropped; empty groups are kept, matching
the usual split semantics). Kernel-friendly helper for the modelled
normalizers. -/
def splitOnChar (p : Char → Bool) (cs : List Char) : List (List Char) :=
  cs.foldr
    (fun c acc =>
      if p c then [] :: acc
      else
        match acc with
        | [] => [[c]]
        | g :: gs => (c :: g) :: gs)
    [[]]

/-- Removes leading and trailing whitespace from a character list. -/
def trimChars (cs : List Char) : List Char :=
  ((cs.dropWhile Char.isWhitespace).reverse.dropWhile Char.isWhitespace).reverse

/-- Joins a list of strings with the given separator character. -/
def joinStrings (sep : Char) (xs : List String) : String :=
  String.mk (((xs.map String.toList).intersperse [sep]).flatten)

/-- Lowercases a string character by character. -/
def toLowerStr (s : String) : String :=
  String.mk (s.toList.map Char.toLower)

/-- The whitespace-separated nonempty words of a string. -/
def wordsOf (s : String) : List String :=
  ((splitOnChar Char.isWhitespace s.toList).filter (· ≠ [])).map String.mk

/-- Modelled from the spec: the line-oriented normalizer of the external
`preproc` collaborator ("a line-oriented normalizer producing an ordered
sequence of cleaned lines"; the exact cleaning rules are an out-of-scope
policy concern).  Modelled as: split the input into lines and trim each
line's surrounding whitespace. -/
def apply_normalizers (text : String) : List String :=
  (splitOnChar (· = '\n') text.toList).map (fun l => String.mk (trimChars l))

/-- Modelled from the spec: the "aggressive" normalizer of the external
`preproc` collaborator ("collapsing a joined block of lines into a single
matching-ready string (case folding, whitespace/punctuation stripping)").
Modelled as: case-fold, split on whitespace, and re-join the nonempty
words with single spaces. -/
def apply_aggressive (s : String) : String :=
  joinStrings ' ' (wordsOf (toLowerStr s))

/-- The sliding `n`-windows (n-grams) of a word list. -/
def ngramsOf (words : List String) (n : Nat) : List (List String) :=
  (List.range (words.length + 1 - n)).map (fun i => (words.drop i).take n)

/-- Modelled from the spec: the fingerprint type of the external `ngram`
collaborator ("an n-gram-multiset type supporting construction from text
at a fixed n ... and value equality"). -/
abbrev NgramSet := Multiset (List String)

/-- Modelled from the spec: fingerprint construction from text at a fixed
`n` — the multiset of word n-grams of the string. -/
def NgramSet.from_str (s : String) (n : Nat) : NgramSet :=
  (ngramsOf (wordsOf s) n : List (List String))

/-- Modelled from the spec: the similarity metric of the external `ngram`
collaborator — "a symmetric similarity score in [0,1] (Dice-coefficient
semantics: 2·|shared elements, counted with multiplicity|/(|A|+|B|))".
When both multisets are empty the score is taken to be 0, keeping the
metric total as the spec requires. -/
def NgramSet.dice (a b : NgramSet) : ℚ :=
  if Multiset.card a + Multiset.card b = 0 then 0
  else (2 * (Multiset.card (a ∩ b)) : ℚ) / ((Multiset.card a : ℚ) + (Multiset.card b : ℚ))

/-- `TextData` (`license.rs` lines 85-91): fingerprint, active line view,
optional stored normalized lines, optional processed text. -/
structure TextData where
  match_data : NgramSet
  lines_view : Nat × Nat
  lines_normalized : Option (List String)
  text_processed : Option String
  deriving DecidableEq

instance : Inhabited TextData :=
  ⟨{ match_data := 0, lines_view := (0, 0), lines_normalized := none, text_processed := none }⟩

/-- `TextData::new` (`license.rs` lines 103-115). -/
def TextData.new (text : String) : TextData :=
  let normalized := apply_normalizers text
  let normalized_joined := joinStrings '\n' normalized
  let processed := apply_aggressive normalized_joined
  { match_data := NgramSet.from_str processed 2,
    lines_view := (0, normalized.length),
    lines_normalized := some normalized,
    text_processed := some processed }

/-- `TextData::without_text` (`license.rs` lines 127-134). -/
def TextData.without_text (td : TextData) : TextData :=
  { match_data := td.match_data,
    lines_view := (0, 0),
    lines_normalized := none,
    text_processed := none }

/-- Rust slice `&xs[a..b]` (valid when `a ≤ b ≤ xs.length`). -/
def sliceRange (xs : List α) (a b : Nat) : List α :=
  (xs.take b).drop a

/-- Failure modes of `with_view`: the explicit `Err` for missing stored
text (`license.rs` line 161), and the panic of the slice `&lines[start..end]`
on out-of-range bounds (line 160), modelled as an error value. -/
inductive ViewError where
  | noText
  | sliceOutOfBounds
  deriving DecidableEq

/-- The `TextData` built by `with_view` for stored lines `lines` and the
narrowed view `[s, e)` (`license.rs` lines 163-170): re-join the sliced
lines, re-process, rebuild the fingerprint, keep the full line store. -/
def viewData (lines : List String) (s e : Nat) : TextData :=
  let processed := apply_aggressive (joinStrings '\n' (sliceRange lines s e))
  { match_data := NgramSet.from_str processed 2,
    lines_view := (s, e),
    lines_normalized := some lines,
    text_processed := some processed }

/-- `TextData::with_view` (`license.rs` lines 158-171). -/
def TextData.with_view (td : TextData) (s e : Nat) : Except ViewError TextData :=
  match td.lines_normalized with
  | none => Except.error ViewError.noText
  | some lines =>
      if s ≤ e ∧ e ≤ lines.length then Except.ok (viewData lines s e)
      else Except.error ViewError.sliceOutOfBounds

/-- `TextData::lines_view` accessor (`license.rs` lines 146-148). -/
def TextData.lines_view_acc (td : TextData) : Nat × Nat :=
  td.lines_view

/-- `TextData::lines` (`license.rs` lines 176-181).  (The Rust slice is
in bounds by the struct invariant.) -/
def TextData.lines (td : TextData) : Option (List String) :=
  match td.lines_normalized with
  | some lines => some (sliceRange lines td.lines_view.1 td.lines_view.2)
  | none => none

/-- `TextData::match_score` (`license.rs` lines 186-188). -/
def TextData.match_score (td other : TextData) : ℚ :=
  NgramSet.dice td.match_data other.match_data

/-- `TextData::eq_data` (`license.rs` lines 190-192). -/
def TextData.eq_data (td other : TextData) : Bool :=
  td.match_data = other.match_data

/-- Rust `Result::unwrap`, modelled totally: where Rust would panic the
model substitutes the default value (the optimizer's invariants are proved
to keep every unwrap on the `ok` branch, so the default is unreachable
there). -/
def unwrapD [Inhabited α] : Except ε α → α
  | Except.ok a => a
  | Except.error _ => default

/-- The probe point `low = (left * 2 + right) / 3` of the bounded search
(`license.rs` line 240). -/
def probeLow (left right : Nat) : Nat :=
  (left * 2 + right) / 3

/-- The probe point `high = (left + right * 2) / 3` of the bounded search
(`license.rs` line 241). -/
def probeHigh (left right : Nat) : Nat :=
  (left + right * 2) / 3

/-- The fold step of the base case (`license.rs` line 237): replace the
accumulator when the new score is `>=` it (so ties keep the later index). -/
def bestStep (acc x : Nat × ℚ) : Nat × ℚ :=
  if x.2 ≥ acc.2 then x else acc

/-- The base-case brute force (`license.rs` lines 235-237): map the
inclusive range `left..=left+n-1` to `(index, score)` pairs and fold for
the best, starting from `(0, 0)`. -/
def foldBest (score : Nat → ℚ) (left n : Nat) : Nat × ℚ :=
  ((List.range' left n).map (fun x => (x, score x))).foldl bestStep ((0 : Nat), (0 : ℚ))

/-- The recursive bounded ternary search `search` nested inside
`search_optimize` (`license.rs` lines 232-250). -/
def search (score : Nat → ℚ) (left right : Nat) : Nat × ℚ :=
  if right - left ≤ 3 then
    foldBest score left (right + 1 - left)
  else
    if score (probeLow left right) > score (probeHigh left right) then
      search score left (probeHigh left right - 1)
    else
      search score (probeLow left right + 1) right
termination_by right - left
decreasing_by
  all_goals simp only [probeLow, probeHigh]
  all_goals omega

/-- `TextData::search_optimize` (`license.rs` lines 226-254).  The memo
cache over `score` (lines 228-230) caches a pure function and is
semantically the identity, so it is omitted from the model. -/
def TextData.search_optimize (td : TextData) (score : Nat → ℚ) (value : Nat → TextData) :
    TextData × ℚ :=
  let optimal := search score td.lines_view.1 td.lines_view.2
  (value optimal.1, optimal.2)

/-- The end-phase `value` closure of `optimize_bounds`
(`license.rs` line 209): `|end| self.with_view(0, end).unwrap()`. -/
def endValue (td : TextData) (e : Nat) : TextData :=
  unwrapD (td.with_view 0 e)

/-- The end-phase `score` closure of `optimize_bounds`
(`license.rs` line 208): `|end| self.with_view(0, end).unwrap().match_score(other)`. -/
def endScore (td other : TextData) (e : Nat) : ℚ :=
  (endValue td e).match_score other

/-- The start-phase `value` closure of `optimize_bounds`
(`license.rs` line 221): `|start| end_optimized.with_view(start, new_end).unwrap()`. -/
def startValue (td : TextData) (newEnd s : Nat) : TextData :=
  unwrapD (td.with_view s newEnd)

/-- The start-phase `score` closure of `optimize_bounds`
(`license.rs` lines 215-220). -/
def startScore (td other : TextData) (newEnd s : Nat) : ℚ :=
  (startValue td newEnd s).match_score other

/-- The first (end-boundary) phase of `optimize_bounds`
(`license.rs` lines 207-210). -/
def endPhase (td other : TextData) : TextData × ℚ :=
  td.search_optimize (endScore td other) (endValue td)

/-- `TextData::optimize_bounds` (`license.rs` lines 205-224). -/
def TextData.optimize_bounds (td other : TextData) : TextData × ℚ :=
  let end_optimized := (endPhase td other).1
  let new_end := end_optimized.lines_view.2
  end_optimized.search_optimize
    (startScore end_optimized other new_end)
    (startValue end_optimized new_end)

/-! ### Helper lemmas -/

lemma dice_nonneg (a b : NgramSet) : 0 ≤ NgramSet.dice a b := by
  unfold NgramSet.dice
  split
  · exact le_refl 0
  · apply div_nonneg <;> positivity

lemma match_score_nonneg (a b : TextData) : 0 ≤ a.match_score b :=
  dice_nonneg _ _

/-- Evaluates the Dice score from the three multiset cardinalities. -/
lemma dice_eval (a b : NgramSet) (i m n : Nat) (hi : Multiset.card (a ∩ b) = i)
    (hm : Multiset.card a = m) (hn : Multiset.card b = n) :
    NgramSet.dice a b = if m + n = 0 then 0 else (2 * i : ℚ) / ((m : ℚ) + (n : ℚ)) := by
  unfold NgramSet.dice
  rw [hi, hm, hn]

lemma with_view_eq_ok (td : TextData) (lines : List String) (s e : Nat)
    (h1 : td.lines_normalized = some lines) (h2 : s ≤ e) (h3 : e ≤ lines.length) :
    td.with_view s e = Except.ok (viewData lines s e) := by
  unfold TextData.with_view
  rw [h1]
  exact if_pos ⟨h2, h3⟩

lemma with_view_none (td : TextData) (s e : Nat) (h : td.lines_normalized = none) :
    td.with_view s e = Except.error ViewError.noText := by
  unfold TextData.with_view
  rw [h]

lemma viewData_lines_view (lines : List String) (s e : Nat) :
    (viewData lines s e).lines_view = (s, e) := rfl

lemma viewData_lines_normalized (lines : List String) (s e : Nat) :
    (viewData lines s e).lines_normalized = some lines := rfl

lemma sliceRange_length (xs : List α) (a b : Nat) (h1 : a ≤ b) (h2 : b ≤ xs.length) :
    (sliceRange xs a b).length = b - a := by
  unfold sliceRange
  rw [List.length_drop, List.length_take]
  omega

/-- The base-case fold returns the last index attaining the maximal score
over `[left, left + n - 1]`, provided all scores are nonnegative. -/
lemma foldBest_spec (score : Nat → ℚ) (hnn : ∀ i, 0 ≤ score i) :
    ∀ (n l : Nat), 0 < n →
      l ≤ (foldBest score l n).1 ∧ (foldBest score l n).1 + 1 ≤ l + n
      ∧ (foldBest score l n).2 = score (foldBest score l n).1
      ∧ (∀ j, l ≤ j → j + 1 ≤ l + n → score j ≤ (foldBest score l n).2)
      ∧ (∀ j, (foldBest score l n).1 < j → j + 1 ≤ l + n → score j < (foldBest score l n).2) := by
  intro n
  induction n with
  | zero => intro l h; omega
  | succ n ih =>
    intro l _
    rcases Nat.eq_zero_or_pos n with h0 | hpos
    · subst h0
      have hfold : foldBest score l 1 = (l, score l) := by
        unfold foldBest bestStep
        rw [List.range'_one]
        simp only [List.map_cons, List.map_nil, List.foldl_cons, List.foldl_nil]
        rw [if_pos (hnn l)]
      rw [hfold]
      refine ⟨le_refl l, by omega, rfl, ?_, ?_⟩
      · intro j hj1 hj2
        have : j = l := by omega
        subst this
        exact le_refl _
      · intro j hj1 hj2
        omega
    · have hfold : foldBest score l (n + 1) = bestStep (foldBest score l n) (l + n, score (l + n)) := by
        unfold foldBest
        rw [List.range'_1_concat, List.map_append, List.foldl_append]
        simp only [List.map_cons, List.map_nil, List.foldl_cons, List.foldl_nil]
      obtain ⟨ih1, ih2, ih3, ih4, ih5⟩ := ih l hpos
      rw [hfold]
      unfold bestStep
      by_cases hc : score (l + n) ≥ (foldBest score l n).2
      · rw [if_pos hc]
        refine ⟨by omega, by omega, rfl, ?_, ?_⟩
        · intro j hj1 hj2
          rcases Nat.lt_or_ge j (l + n) with hlt | hge
          · exact le_trans (ih4 j hj1 (by omega)) hc
          · have : j = l + n := by omega
            subst this
            exact le_refl _
        · intro j hj1 hj2
          omega
      · rw [if_neg hc]
        have hc' : score (l + n) < (foldBest score l n).2 := lt_of_not_ge hc
        refine ⟨ih1, by omega, ih3, ?_, ?_⟩
        · intro j hj1 hj2
          rcases Nat.lt_or_ge j (l + n) with hlt | hge
          · exact ih4 j hj1 (by omega)
          · have : j = l + n := by omega
            subst this
            exact le_of_lt hc'
        · intro j hj1 hj2
          rcases Nat.lt_or_ge j (l + n) with hlt | hge
          · exact ih5 j hj1 (by omega)
          · have : j = l + n := by omega
            subst this
            exact hc'

/-- Full description of the base case of the bounded search. -/
lemma search_base (score : Nat → ℚ) (hnn : ∀ i, 0 ≤ score i) (l r : Nat)
    (hlr : l ≤ r) (h3 : r - l ≤ 3) :
    l ≤ (search score l r).1 ∧ (search score l r).1 ≤ r
    ∧ (search score l r).2 = score (search score l r).1
    ∧ (∀ j, l ≤ j → j ≤ r → score j ≤ (search score l r).2)
    ∧ (∀ j, (search score l r).1 < j → j ≤ r → score j < (search score l r).2) := by
  have hs : search score l r = foldBest score l (r + 1 - l) := by
    rw [search.eq_def, if_pos h3]
  obtain ⟨a1, a2, a3, a4, a5⟩ := foldBest_spec score hnn (r + 1 - l) l (by omega)
  rw [hs]
  refine ⟨a1, by omega, a3, ?_, ?_⟩
  · intro j hj1 hj2
    exact a4 j hj1 (by omega)
  · intro j hj1 hj2
    exact a5 j hj1 (by omega)

/-- Unfolding of the recursive case of the bounded search. -/
lemma search_rec_eq (score : Nat → ℚ) (l r : Nat) (h : ¬ (r - l ≤ 3)) :
    search score l r =
      if score (probeLow l r) > score (probeHigh l r) then
        search score l (probeHigh l r - 1)
      else
        search score (probeLow l r + 1) r := by
  rw [search.eq_def, if_neg h]

/-- The bounded search returns an index inside `[l, r]` paired with that
index's score, provided all scores are nonnegative. -/
lemma search_spec (score : Nat → ℚ) (hnn : ∀ i, 0 ≤ score i) :
    ∀ (l r : Nat), l ≤ r →
      l ≤ (search score l r).1 ∧ (search score l r).1 ≤ r
      ∧ (search score l r).2 = score (search score l r).1 := by
  have key : ∀ (n l r : Nat), r - l ≤ n → l ≤ r →
      l ≤ (search score l r).1 ∧ (search score l r).1 ≤ r
      ∧ (search score l r).2 = score (search score l r).1 := by
    intro n
    induction n with
    | zero =>
      intro l r hn hlr
      obtain ⟨a1, a2, a3, _, _⟩ := search_base score hnn l r hlr (by omega)
      exact ⟨a1, a2, a3⟩
    | succ n ih =>
      intro l r hn hlr
      by_cases h3 : r - l ≤ 3
      · obtain ⟨a1, a2, a3, _, _⟩ := search_base score hnn l r hlr h3
        exact ⟨a1, a2, a3⟩
      · have hlow : l ≤ probeLow l r ∧ probeLow l r + 2 ≤ r := by
          constructor <;> (simp only [probeLow]; omega)
        have hhigh : l + 2 ≤ probeHigh l r ∧ probeHigh l r ≤ r := by
          constructor <;> (simp only [probeHigh]; omega)
        rw [search_rec_eq score l r h3]
        by_cases hc : score (probeLow l r) > score (probeHigh l r)
        · rw [if_pos hc]
          obtain ⟨b1, b2, b3⟩ := ih l (probeHigh l r - 1) (by omega) (by omega)
          exact ⟨b1, by omega, b3⟩
        · rw [if_neg hc]
          obtain ⟨b1, b2, b3⟩ := ih (probeLow l r + 1) r (by omega) (by omega)
          exact ⟨by omega, b2, b3⟩
  intro l r hlr
  exact key (r - l) l r (le_refl _) hlr

lemma with_view_oob (td : TextData) (lines : List String) (s e : Nat)
    (h : td.lines_normalized = some lines) (hb : ¬ (s ≤ e ∧ e ≤ lines.length)) :
    td.with_view s e = Except.error ViewError.sliceOutOfBounds := by
  unfold TextData.with_view
  rw [h]
  exact if_neg hb

/-- The end-phase value closure always produces a view starting at 0
(on the ok branch by construction, on the panic branch by the default). -/
lemma endValue_view_fst (td : TextData) (e : Nat) : (endValue td e).lines_view.1 = 0 := by
  unfold endValue
  cases h : td.lines_normalized with
  | none =>
    rw [with_view_none td 0 e h]
    rfl
  | some lines =>
    by_cases hb : e ≤ lines.length
    · rw [with_view_eq_ok td lines 0 e h (Nat.zero_le e) hb]
      rfl
    · rw [with_view_oob td lines 0 e h (fun hx => hb hx.2)]
      rfl

/-- `search_optimize` pairs the materialized object with that same index's
score: the returned score is the returned object's score whenever the
score closure is the value closure's match score. -/
lemma search_optimize_snd (td other : TextData) (sc : Nat → ℚ) (valf : Nat → TextData)
    (hsc : ∀ i, sc i = (valf i).match_score other)
    (hlr : td.lines_view.1 ≤ td.lines_view.2) :
    (td.search_optimize sc valf).2 = (td.search_optimize sc valf).1.match_score other := by
  unfold TextData.search_optimize
  simp only
  have hnn : ∀ i, 0 ≤ sc i := by
    intro i
    rw [hsc i]
    exact match_score_nonneg _ _
  obtain ⟨_, _, h3⟩ := search_spec sc hnn td.lines_view.1 td.lines_view.2 hlr
  rw [h3, hsc]

lemma endPhase_fst (td other : TextData) :
    (endPhase td other).1
      = endValue td (search (endScore td other) td.lines_view.1 td.lines_view.2).1 := rfl

/-! ### Claim theorems -/

/-- C2: for every object with stored normalized lines and indices
`s ≤ e ≤` number of stored lines, `with_view` succeeds, the result's view
is exactly `(s, e)`, its `lines` are exactly the slice `[s, e)` of the
original store (hence `e - s` entries), and the result still carries the
full original line store. -/
theorem with_view_containment (td : TextData) (lines : List String) (s e : Nat)
    (h1 : td.lines_normalized = some lines) (h2 : s ≤ e) (h3 : e ≤ lines.length) :
    td.with_view s e = Except.ok (viewData lines s e)
    ∧ (viewData lines s e).lines_view = (s, e)
    ∧ (viewData lines s e).lines_normalized = some lines
    ∧ (viewData lines s e).lines = some (sliceRange lines s e)
    ∧ (sliceRange lines s e).length = e - s :=
  ⟨with_view_eq_ok td lines s e h1 h2 h3, rfl, rfl, rfl, sliceRange_length lines s e h2 h3⟩

/-- Witness for C2 at a concrete two-line object. -/
theorem with_view_containment_witness :
    TextData.with_view ⟨0, (0, 2), some ["a", "b"], none⟩ 0 1
        = Except.ok (viewData ["a", "b"] 0 1)
    ∧ (viewData ["a", "b"] 0 1).lines_view = (0, 1)
    ∧ (viewData ["a", "b"] 0 1).lines_normalized = some ["a", "b"]
    ∧ (viewData ["a", "b"] 0 1).lines = some (sliceRange ["a", "b"] 0 1)
    ∧ (sliceRange ["a", "b"] 0 1).length = 1 - 0 :=
  with_view_containment ⟨0, (0, 2), some ["a", "b"], none⟩ ["a", "b"] 0 1 rfl
    (by decide) (by decide)

/-- C3: for in-bounds indices, `with_view` returns an error (namely the
"no stored text" error) if and only if the normalized lines are absent;
with stored lines it returns `ok`.  (Non-mutation of the original object
is automatic in this pure model: `with_view` returns a new value.) -/
theorem with_view_error_iff_no_text (td : TextData) (s e : Nat) (h2 : s ≤ e)
    (h3 : ∀ lines, td.lines_normalized = some lines → e ≤ lines.length) :
    ((∃ err, td.with_view s e = Except.error err) ↔ td.lines_normalized = none)
    ∧ (td.lines_normalized = none → td.with_view s e = Except.error ViewError.noText)
    ∧ (∀ lines, td.lines_normalized = some lines →
        td.with_view s e = Except.ok (viewData lines s e)) := by
  cases h : td.lines_normalized with
  | none =>
    refine ⟨⟨fun _ => rfl, fun _ => ⟨ViewError.noText, with_view_none td s e h⟩⟩,
      fun _ => with_view_none td s e h, ?_⟩
    intro lines hl
    exact Option.noConfusion hl
  | some lines =>
    have hok := with_view_eq_ok td lines s e h h2 (h3 lines h)
    refine ⟨⟨?_, ?_⟩, ?_, ?_⟩
    · rintro ⟨err, herr⟩
      rw [hok] at herr
      exact Except.noConfusion herr
    · intro hn
      exact Option.noConfusion hn
    · intro hn
      exact Option.noConfusion hn
    · intro lines' hl'
      injection hl' with hll
      subst hll
      exact hok

/-- Witness for C3 at a concrete object that discarded its text. -/
theorem with_view_error_iff_no_text_witness :
    ((∃ err, TextData.with_view ⟨0, (0, 0), none, none⟩ 0 0 = Except.error err)
        ↔ (⟨0, (0, 0), none, none⟩ : TextData).lines_normalized = none)
    ∧ ((⟨0, (0, 0), none, none⟩ : TextData).lines_normalized = none →
        TextData.with_view ⟨0, (0, 0), none, none⟩ 0 0 = Except.error ViewError.noText)
    ∧ (∀ lines, (⟨0, (0, 0), none, none⟩ : TextData).lines_normalized = some lines →
        TextData.with_view ⟨0, (0, 0), none, none⟩ 0 0 = Except.ok (viewData lines 0 0)) :=
  with_view_error_iff_no_text ⟨0, (0, 0), none, none⟩ 0 0 (le_refl 0)
    (fun _ hl => Option.noConfusion hl)

/-- C4: in the base case (`r - l ≤ 3`, nonnegative scores as all Dice
scores are), the search returns an index of `[l, r]` achieving the highest
score over the whole inclusive range, with ties broken in favor of the
later index (every strictly later index scores strictly lower). -/
theorem search_base_case_argmax (score : Nat → ℚ) (l r : Nat)
    (hnn : ∀ i, 0 ≤ score i) (hlr : l ≤ r) (h3 : r - l ≤ 3) :
    l ≤ (search score l r).1 ∧ (search score l r).1 ≤ r
    ∧ (search score l r).2 = score (search score l r).1
    ∧ (∀ j, l ≤ j → j ≤ r → score j ≤ (search score l r).2)
    ∧ (∀ j, (search score l r).1 < j → j ≤ r → score j < (search score l r).2) :=
  search_base score hnn l r hlr h3

/-- Witness for C4 on the constant score function over `[0, 3]`. -/
theorem search_base_case_argmax_witness :
    ((∀ i : Nat, 0 ≤ (fun _ => (1 : ℚ)) i) ∧ (0 : Nat) ≤ 3 ∧ (3 : Nat) - 0 ≤ 3)
    ∧ (0 ≤ (search (fun _ => (1 : ℚ)) 0 3).1 ∧ (search (fun _ => (1 : ℚ)) 0 3).1 ≤ 3
      ∧ (search (fun _ => (1 : ℚ)) 0 3).2 = (fun _ => (1 : ℚ)) (search (fun _ => (1 : ℚ)) 0 3).1
      ∧ (∀ j, 0 ≤ j → j ≤ 3 → (fun _ => (1 : ℚ)) j ≤ (search (fun _ => (1 : ℚ)) 0 3).2)
      ∧ (∀ j, (search (fun _ => (1 : ℚ)) 0 3).1 < j → j ≤ 3 →
          (fun _ => (1 : ℚ)) j < (search (fun _ => (1 : ℚ)) 0 3).2)) :=
  ⟨⟨fun _ => zero_le_one, Nat.zero_le 3, by omega⟩,
   search_base_case_argmax (fun _ => (1 : ℚ)) 0 3 (fun _ => zero_le_one) (Nat.zero_le 3) (by omega)⟩

/-- C5: in the recursive case (`r - l > 3`) the probe points are
`low = (2l + r) / 3` and `high = (l + 2r) / 3` (integer division); if
`score low > score high` the search recurses on `[l, high - 1]`, else on
`[low + 1, r]`. -/
theorem search_recursive_case_eq (score : Nat → ℚ) (l r : Nat) (h : 3 < r - l) :
    probeLow l r = (l * 2 + r) / 3 ∧ probeHigh l r = (l + r * 2) / 3
    ∧ search score l r =
        (if score (probeLow l r) > score (probeHigh l r) then
          search score l (probeHigh l r - 1)
        else
          search score (probeLow l r + 1) r) :=
  ⟨rfl, rfl, search_rec_eq score l r (by omega)⟩

/-- Witness for C5 on the constant score function over `[0, 7]`. -/
theorem search_recursive_case_eq_witness :
    3 < 7 - 0
    ∧ (probeLow 0 7 = (0 * 2 + 7) / 3 ∧ probeHigh 0 7 = (0 + 7 * 2) / 3
      ∧ search (fun _ => (0 : ℚ)) 0 7 =
          (if (fun _ => (0 : ℚ)) (probeLow 0 7) > (fun _ => (0 : ℚ)) (probeHigh 0 7) then
            search (fun _ => (0 : ℚ)) 0 (probeHigh 0 7 - 1)
          else
            search (fun _ => (0 : ℚ)) (probeLow 0 7 + 1) 7)) :=
  ⟨by omega, search_recursive_case_eq (fun _ => (0 : ℚ)) 0 7 (by omega)⟩

/-- C6: the score is a function of the two fingerprints alone, and
discarding text (on either side or both) preserves the fingerprint and
hence the score exactly. -/
theorem match_score_discard_invariant (a b : TextData) :
    a.match_score b = NgramSet.dice a.match_data b.match_data
    ∧ (a.without_text).match_data = a.match_data
    ∧ (a.without_text).match_score b = a.match_score b
    ∧ a.match_score (b.without_text) = a.match_score b
    ∧ (a.without_text).match_score (b.without_text) = a.match_score b :=
  ⟨rfl, rfl, rfl, rfl, rfl⟩

/-- C7: the score returned by `optimize_bounds` is exactly the returned
re-viewed object's match score against the reference. -/
theorem optimize_bounds_score_consistent (td other : TextData) :
    (td.optimize_bounds other).2 = (td.optimize_bounds other).1.match_score other := by
  have h := search_optimize_snd (endPhase td other).1 other
      (startScore (endPhase td other).1 other ((endPhase td other).1.lines_view.2))
      (startValue (endPhase td other).1 ((endPhase td other).1.lines_view.2))
      (fun _ => rfl)
      (by rw [endPhase_fst, endValue_view_fst]; exact Nat.zero_le _)
  exact h

/-- C8: in the recursive case both candidate sub-intervals are strictly
smaller than `[l, r]`, so the bounded search's recursion (on the measure
`r - l`) terminates; this is the well-foundedness argument under which
`search` is accepted as a total function. -/
theorem search_interval_strictly_shrinks (l r : Nat) (h : 3 < r - l) :
    (probeHigh l r - 1) - l < r - l ∧ r - (probeLow l r + 1) < r - l := by
  constructor <;> (simp only [probeLow, probeHigh]; omega)

/-- Witness for C8 at `l = 0`, `r = 5`. -/
theorem search_interval_strictly_shrinks_witness :
    3 < 5 - 0 ∧ ((probeHigh 0 5 - 1) - 0 < 5 - 0 ∧ 5 - (probeLow 0 5 + 1) < 5 - 0) :=
  ⟨by omega, search_interval_strictly_shrinks 0 5 (by omega)⟩

/-- C9: for a document built by `new`, text is stored and every candidate
re-view the optimizer can request is in bounds: the first phase's
`with_view 0 e` succeeds for every `e` up to the view end, the end found
by the first phase stays within the line count, and the second phase's
`with_view s new_end` succeeds for every `s ≤ new_end` — so the missing
text error and the out-of-range slice are unreachable and the internal
unwraps never fail. -/
theorem optimize_bounds_internal_views_safe (text : String) (other : TextData) :
    (∀ s e : Nat, s ≤ e → e ≤ (TextData.new text).lines_view.2 →
        ∃ td', (TextData.new text).with_view s e = Except.ok td')
    ∧ (endPhase (TextData.new text) other).1.lines_view.2 ≤ (TextData.new text).lines_view.2
    ∧ (∀ s : Nat, s ≤ (endPhase (TextData.new text) other).1.lines_view.2 →
        ∃ td', (endPhase (TextData.new text) other).1.with_view s
          ((endPhase (TextData.new text) other).1.lines_view.2) = Except.ok td') := by
  have hlines : (TextData.new text).lines_normalized = some (apply_normalizers text) := rfl
  have hview : (TextData.new text).lines_view = (0, (apply_normalizers text).length) := rfl
  have hnn : ∀ i, 0 ≤ endScore (TextData.new text) other i :=
    fun _ => match_score_nonneg _ _
  have hlr : (TextData.new text).lines_view.1 ≤ (TextData.new text).lines_view.2 := by
    rw [hview]
    exact Nat.zero_le _
  obtain ⟨_, s2, _⟩ := search_spec (endScore (TextData.new text) other) hnn
      (TextData.new text).lines_view.1 (TextData.new text).lines_view.2 hlr
  have hj2 : (search (endScore (TextData.new text) other) (TextData.new text).lines_view.1
      (TextData.new text).lines_view.2).1 ≤ (apply_normalizers text).length := by
    rw [hview] at s2
    exact s2
  have hEnd : (endPhase (TextData.new text) other).1
      = viewData (apply_normalizers text) 0
          (search (endScore (TextData.new text) other) (TextData.new text).lines_view.1
            (TextData.new text).lines_view.2).1 := by
    rw [endPhase_fst]
    unfold endValue
    rw [with_view_eq_ok _ _ _ _ hlines (Nat.zero_le _) hj2]
    rfl
  refine ⟨?_, ?_, ?_⟩
  · intro s e hse he
    rw [hview] at he
    exact ⟨viewData (apply_normalizers text) s e, with_view_eq_ok _ _ s e hlines hse he⟩
  · rw [hEnd, hview]
    exact hj2
  · intro s hs
    rw [hEnd] at hs ⊢
    exact ⟨viewData (apply_normalizers text) s _,
      with_view_eq_ok _ (apply_normalizers text) s _ rfl hs hj2⟩

/-- Witness for C9 on a concrete one-line document. -/
theorem optimize_bounds_internal_views_safe_witness :
    (∃ td', (TextData.new "a").with_view 0 0 = Except.ok td')
    ∧ (∃ td', (endPhase (TextData.new "a") (TextData.new "a")).1.with_view
        ((endPhase (TextData.new "a") (TextData.new "a")).1.lines_view.2)
        ((endPhase (TextData.new "a") (TextData.new "a")).1.lines_view.2) = Except.ok td') :=
  ⟨(optimize_bounds_internal_views_safe "a" (TextData.new "a")).1 0 0 (le_refl 0) (Nat.zero_le _),
   (optimize_bounds_internal_views_safe "a" (TextData.new "a")).2.2 _ (le_refl _)⟩

/-- C10: discarding text is idempotent, and the discarded object has the
same fingerprint, view `(0, 0)`, and no lines or processed text. -/
theorem without_text_idempotent (a : TextData) :
    (a.without_text).without_text = a.without_text
    ∧ (a.without_text).match_data = a.match_data
    ∧ (a.without_text).lines_view = (0, 0)
    ∧ (a.without_text).lines_normalized = none
    ∧ (a.without_text).text_processed = none :=
  ⟨rfl, rfl, rfl, rfl, rfl⟩

/-- C1 (amended): the first phase of the optimizer holds the start fixed
at the constant 0 — not at the document's current view start — while the
candidate-end scoring function re-views the document as `[0, end)` and
scores it against the reference, and the bounded search does run over the
full current view range `[view.1, view.2]`. -/
theorem optimize_end_phase_fixes_start_at_zero (td other : TextData) (lines : List String)
    (e : Nat) (h1 : td.lines_normalized = some lines) (h3 : e ≤ lines.length) :
    (endValue td e).lines_view = (0, e)
    ∧ endScore td other e = (endValue td e).match_score other
    ∧ endPhase td other
        = (endValue td (search (endScore td other) td.lines_view.1 td.lines_view.2).1,
           (search (endScore td other) td.lines_view.1 td.lines_view.2).2) := by
  refine ⟨?_, rfl, rfl⟩
  unfold endValue
  rw [with_view_eq_ok td lines 0 e h1 (Nat.zero_le e) h3]
  rfl

/-- Witness for the amended C1 at a concrete one-line object. -/
theorem optimize_end_phase_fixes_start_at_zero_witness :
    (endValue ⟨0, (0, 1), some ["a"], none⟩ 1).lines_view = (0, 1)
    ∧ endScore ⟨0, (0, 1), some ["a"], none⟩ ⟨0, (0, 0), none, none⟩ 1
        = (endValue ⟨0, (0, 1), some ["a"], none⟩ 1).match_score ⟨0, (0, 0), none, none⟩
    ∧ endPhase ⟨0, (0, 1), some ["a"], none⟩ ⟨0, (0, 0), none, none⟩
        = (endValue ⟨0, (0, 1), some ["a"], none⟩
             (search (endScore ⟨0, (0, 1), some ["a"], none⟩ ⟨0, (0, 0), none, none⟩)
               (⟨0, (0, 1), some ["a"], none⟩ : TextData).lines_view.1
               (⟨0, (0, 1), some ["a"], none⟩ : TextData).lines_view.2).1,
           (search (endScore ⟨0, (0, 1), some ["a"], none⟩ ⟨0, (0, 0), none, none⟩)
               (⟨0, (0, 1), some ["a"], none⟩ : TextData).lines_view.1
               (⟨0, (0, 1), some ["a"], none⟩ : TextData).lines_view.2).2) :=
  optimize_end_phase_fixes_start_at_zero ⟨0, (0, 1), some ["a"], none⟩
    ⟨0, (0, 0), none, none⟩ ["a"] 1 rfl (by decide)

/-- C1, counterexample to the claim as stated: for the concrete document
`td0` (the two-line text re-viewed to `(1, 2)`, so its view start is 1),
the first phase's candidate object at end 2 has view start 0, not 1, and
its score against the reference differs from the score the claim's
description (re-view as `[view start, end)`) would produce. -/
theorem optimize_end_phase_start_not_view_start :
    (unwrapD ((TextData.new "a\nb").with_view 1 2)).lines_view.1 = 1
    ∧ (endValue (unwrapD ((TextData.new "a\nb").with_view 1 2)) 2).lines_view.1 = 0
    ∧ endScore (unwrapD ((TextData.new "a\nb").with_view 1 2)) (TextData.new "a b") 2
        ≠ (unwrapD ((unwrapD ((TextData.new "a\nb").with_view 1 2)).with_view
            ((unwrapD ((TextData.new "a\nb").with_view 1 2)).lines_view.1) 2)).match_score
            (TextData.new "a b") := by
  refine ⟨by decide, by decide, ?_⟩
  have hl : endScore (unwrapD ((TextData.new "a\nb").with_view 1 2)) (TextData.new "a b") 2
      = 1 := by
    unfold endScore TextData.match_score
    rw [dice_eval _ _ 1 1 1 (by decide) (by decide) (by decide)]
    norm_num
  have hr : (unwrapD ((unwrapD ((TextData.new "a\nb").with_view 1 2)).with_view
      ((unwrapD ((TextData.new "a\nb").with_view 1 2)).lines_view.1) 2)).match_score
      (TextData.new "a b") = 0 := by
    unfold TextData.match_score
    rw [dice_eval _ _ 0 0 1 (by decide) (by decide) (by decide)]
    norm_num
  rw [hl, hr]
  norm_num

end Askalono
